import Mathlib

/-!
Shallow embedding of `src/main.py` together with the networkx / numpy
library routines it calls (`read_edgelist`, `closeness_centrality`,
`betweenness_centrality`, `clustering`, `average_clustering`,
`gnm_random_graph`, `np.mean`, `np.std`), and proofs about the embedded
program.  Real numbers produced by the program are modelled as exact
rationals; the one irrational quantity (a standard deviation, a square
root) is carried symbolically, see `zstat`.
-/

namespace NetMetrics

/-- An undirected simple graph as networkx builds it: nodes kept in first
insertion order (Python dict order), undirected edges with duplicates
(in either orientation) collapsed.  Self-loops never arise in the inputs
considered here. -/
structure Graph (α : Type) where
  nodes : List α
  edges : List (α × α)
deriving DecidableEq, Repr

variable {α : Type} [DecidableEq α]

def emptyG : Graph α := ⟨[], []⟩

/-- networkx `G.add_node`: appended only if not already present. -/
def Graph.addNode (g : Graph α) (v : α) : Graph α :=
  if g.nodes.contains v then g else ⟨g.nodes ++ [v], g.edges⟩

/-- Undirected edge membership, either orientation. -/
def Graph.hasEdge (g : Graph α) (u v : α) : Bool :=
  g.edges.any (fun e => (e.1 = u && e.2 = v) || (e.1 = v && e.2 = u))

/-- networkx `G.add_edge u v`: endpoints are added as nodes (u first),
the edge is stored once. -/
def Graph.addEdge (g : Graph α) (u v : α) : Graph α :=
  let g1 := (g.addNode u).addNode v
  if g1.hasEdge u v then g1 else ⟨g1.nodes, g1.edges ++ [(u, v)]⟩

/-- Adjacency list of `v` (in node order). -/
def Graph.neighbors (g : Graph α) (v : α) : List α :=
  g.nodes.filter (fun u => g.hasEdge v u)

/-- Append keeping first occurrences only. -/
def dedupAppend (acc : List α) (x : α) : List α :=
  if acc.contains x then acc else acc ++ [x]

def dedupF (l : List α) : List α := l.foldl dedupAppend []

/-- Breadth-first search level expansion: `visited` is the list of
`(node, distance)` pairs discovered so far (the current frontier
included), `d` the distance of the current frontier. -/
def bfsGo (g : Graph α) : ℕ → List α → List (α × ℕ) → ℕ → List (α × ℕ)
  | 0, _, visited, _ => visited
  | fuel + 1, frontier, visited, d =>
    let next := dedupF ((frontier.flatMap (fun v => g.neighbors v)).filter
        (fun u => !(visited.any (fun p => p.1 = u))))
    if next.isEmpty then visited
    else bfsGo g fuel next (visited ++ next.map (fun u => (u, d + 1))) (d + 1)

/-- All `(node, shortest-path distance)` pairs reachable from `s`
(networkx `single_source_shortest_path_length`). -/
def bfs (g : Graph α) (s : α) : List (α × ℕ) :=
  bfsGo g g.nodes.length [s] [(s, 0)] 0

def Graph.dist (g : Graph α) (s v : α) : Option ℕ :=
  ((bfs g s).find? (fun p => p.1 = v)).map (fun p => p.2)

/-- `sum(sp.values())` in networkx closeness. -/
def sumDist (g : Graph α) (s : α) : ℕ := ((bfs g s).map (fun p => p.2)).sum

/-- `len(sp)`: number of nodes reachable from `s`, `s` included. -/
def reachCount (g : Graph α) (s : α) : ℕ := (bfs g s).length

/-- networkx `closeness_centrality` (defaults: `wf_improved=True`):
`(r-1)/totsp` scaled by the Wasserman–Faust factor `(r-1)/(n-1)` when
`totsp > 0` and `n > 1`, else `0`. -/
def closeness (g : Graph α) (v : α) : ℚ :=
  let r := reachCount g v
  let tot := sumDist g v
  let n := g.nodes.length
  if 0 < tot ∧ 1 < n then (((r : ℚ) - 1) / (tot : ℚ)) * (((r : ℚ) - 1) / ((n : ℚ) - 1))
  else 0

def closeness_centrality (g : Graph α) : List (α × ℚ) :=
  g.nodes.map (fun v => (v, closeness g v))

/-- Number of shortest `s`-paths reaching a node at distance `d`
(Brandes' sigma), by recursion on the distance. -/
def sigAux (g : Graph α) (s : α) : ℕ → α → ℕ
  | 0, v => if v = s then 1 else 0
  | d + 1, v =>
    (((g.neighbors v).filter (fun u => g.dist s u = some d)).map
      (fun u => sigAux g s d u)).sum

def sigma (g : Graph α) (s : α) (v : α) : ℕ :=
  match g.dist s v with
  | none => 0
  | some d => sigAux g s d v

/-- Brandes' dependency accumulation `delta`, computed backwards from the
deepest BFS layer; the fuel bounds the number of layers below `v`. -/
def deltaAux (g : Graph α) (s : α) : ℕ → α → ℚ
  | 0, _ => 0
  | f + 1, v =>
    match g.dist s v with
    | none => 0
    | some dv =>
      (((g.neighbors v).filter (fun w => g.dist s w = some (dv + 1))).map
        (fun w => ((sigma g s v : ℚ) / (sigma g s w : ℚ)) * (1 + deltaAux g s f w))).sum

def delta (g : Graph α) (s : α) (v : α) : ℚ := deltaAux g s g.nodes.length v

/-- Unnormalized betweenness: dependencies summed over all sources
(`betweenness[w] += delta[w]` for `w ≠ s`, ordered pairs counted). -/
def betweennessRaw (g : Graph α) (v : α) : ℚ :=
  ((g.nodes.filter (fun s => s ≠ v)).map (fun s => delta g s v)).sum

/-- networkx `betweenness_centrality` (defaults: `normalized=True`,
`endpoints=False`): `_rescale` multiplies by `1/((n-1)(n-2))` when
`n > 2` and leaves the value unscaled otherwise. -/
def betweenness (g : Graph α) (v : α) : ℚ :=
  let n := g.nodes.length
  if 2 < n then betweennessRaw g v / (((n : ℚ) - 1) * ((n : ℚ) - 2))
  else betweennessRaw g v

def betweenness_centrality (g : Graph α) : List (α × ℚ) :=
  g.nodes.map (fun v => (v, betweenness g v))

/-- Number of edges among the listed nodes (each unordered pair once). -/
def edgesAmong (g : Graph α) : List α → ℕ
  | [] => 0
  | x :: xs => (xs.filter (fun y => g.hasEdge x y)).length + edgesAmong g xs

/-- networkx `clustering` for an unweighted node: `2·t/(d(d-1))` with `t`
the number of edges among the neighbors, `0` when `t = 0` (in particular
when `d < 2`). -/
def localClustering (g : Graph α) (v : α) : ℚ :=
  let nbrs := (g.neighbors v).filter (fun u => u ≠ v)
  let d := (g.neighbors v).length
  if d < 2 then 0
  else (2 * (edgesAmong g nbrs) : ℚ) / ((d : ℚ) * ((d : ℚ) - 1))

def clustering (g : Graph α) : List (α × ℚ) :=
  g.nodes.map (fun v => (v, localClustering g v))

/-- networkx `average_clustering`: mean of the local coefficients over
all nodes (degree < 2 nodes contribute 0). -/
def average_clustering (g : Graph α) : ℚ :=
  ((clustering g).map (fun p => p.2)).sum / (g.nodes.length : ℚ)

/-- `np.mean` of a 1-d array (all arrays in this program are nonempty). -/
def npmean (l : List ℚ) : ℚ := l.sum / (l.length : ℚ)

/-- Population variance, the square of `np.std` (`ddof=0`). -/
def npvar (l : List ℚ) : ℚ := npmean (l.map (fun x => (x - npmean l) ^ 2))

/-- One z-score division `(observed - np.mean(l)) / np.std(l)` as the
program performs it.  `np.std l` is the irrational `√(npvar l)`, so the
embedding records the exact pair (numerator, variance) that determines
the finite float value; when the variance is zero numpy carries out the
division anyway and yields a non-finite float (NaN or ±infinity) while
raising nothing — modelled as `none`.  No branch of this function is an
exception. -/
def zstat (obs : ℚ) (l : List ℚ) : Option (ℚ × ℚ) :=
  if npvar l = 0 then none else some (obs - npmean l, npvar l)

/-- The per-sample metric lists built by `generate_random_graphs`: for
closeness and betweenness the code appends
`list(nx...._centrality(random_graph).values())` — the full per-node
list — while for clustering it appends the scalar
`nx.average_clustering(random_graph)`. -/
structure RandomGraphMetrics where
  closeness : List (List ℚ)
  betweenness : List (List ℚ)
  clustering : List ℚ
deriving DecidableEq, Repr

/-- Nodes `0, …, n-1`, no edges (`nx.empty_graph`). -/
def emptyGraphOn (n : ℕ) : Graph ℕ := ⟨List.range n, []⟩

/-- `nx.complete_graph n`: all unordered pairs as edges. -/
def completeGraph (n : ℕ) : Graph ℕ :=
  ⟨List.range n, (List.range n).flatMap (fun j => (List.range j).map (fun i => (i, j)))⟩

/-- The rejection-sampling loop of `nx.gnm_random_graph`: repeatedly draw
two node indices from the random stream, skip self-loops and existing
edges, stop after `m` insertions.  The stream doubles as fuel: an
exhausted stream yields `none` (the Python loop would keep drawing). -/
def gnmLoop (m : ℕ) (nlist : List ℕ) : List ℕ → Graph ℕ → ℕ → Option (Graph ℕ)
  | [], g, cnt => if m ≤ cnt then some g else none
  | [_], g, cnt => if m ≤ cnt then some g else none
  | a :: b :: rest, g, cnt =>
    if m ≤ cnt then some g
    else if nlist.getD (a % nlist.length) 0 = nlist.getD (b % nlist.length) 0 ∨
        g.hasEdge (nlist.getD (a % nlist.length) 0) (nlist.getD (b % nlist.length) 0) then
      gnmLoop m nlist rest g cnt
    else
      gnmLoop m nlist rest
        (g.addEdge (nlist.getD (a % nlist.length) 0) (nlist.getD (b % nlist.length) 0))
        (cnt + 1)

/-- `nx.gnm_random_graph n m` (undirected): one node and no edges when
`n = 1`; the complete graph when `m ≥ n(n-1)/2` (no error is raised for
over-large `m`); otherwise the rejection-sampling loop.  `rng` is the
stream of draws of the process-wide random source. -/
def gnm_random_graph (n m : ℕ) (rng : List ℕ) : Option (Graph ℕ) :=
  if n = 1 then some (emptyGraphOn 1)
  else if n * (n - 1) ≤ 2 * m then some (completeGraph n)
  else gnmLoop m (List.range n) rng (emptyGraphOn n) 0

/-- `generate_random_graphs` (src/main.py:79-104): for each of
`numGraphs` samples draw a `G(n,m)` graph with the observed node and
edge counts and append, in loop order, the full per-node closeness
list, the full per-node betweenness list, and the scalar global
clustering.  One random stream per sample. -/
def generate_random_graphs (g : Graph α) (numGraphs : ℕ)
    (rngs : List (List ℕ)) : Option RandomGraphMetrics :=
  match numGraphs, rngs with
  | 0, _ => some ⟨[], [], []⟩
  | _ + 1, [] => none
  | k + 1, r :: rs =>
    match gnm_random_graph g.nodes.length g.edges.length r,
          generate_random_graphs g k rs with
    | some rg, some rest =>
      some ⟨((closeness_centrality rg).map (fun p => p.2)) :: rest.closeness,
            ((betweenness_centrality rg).map (fun p => p.2)) :: rest.betweenness,
            average_clustering rg :: rest.clustering⟩
    | _, _ => none

/-- `calculate_metrics` (src/main.py:33-51). -/
def calculate_metrics (g : Graph α) :
    List (α × ℚ) × List (α × ℚ) × List (α × ℚ) :=
  (closeness_centrality g, betweenness_centrality g, clustering g)

/-- `np.mean(list(nx.closeness_centrality(graph).values()))` as
recomputed inside `calculate_z_scores`. -/
def observed_closeness (g : Graph α) : ℚ :=
  npmean ((closeness_centrality g).map (fun p => p.2))

def observed_betweenness (g : Graph α) : ℚ :=
  npmean ((betweenness_centrality g).map (fun p => p.2))

def observed_clustering (g : Graph α) : ℚ := average_clustering g

/-- `calculate_z_scores` (src/main.py:53-77).  `np.mean` / `np.std` of
the nested closeness and betweenness lists act on the 2-d array of all
per-node values, i.e. on the flattened list (the inner lists all have
the same length, one entry per node).  The function raises nothing: each
component is a `zstat` value, `none` being numpy's non-finite float. -/
def calculate_z_scores (g : Graph α) (rgs : RandomGraphMetrics) :
    Option (ℚ × ℚ) × Option (ℚ × ℚ) × Option (ℚ × ℚ) :=
  (zstat (observed_closeness g) rgs.closeness.flatten,
   zstat (observed_betweenness g) rgs.betweenness.flatten,
   zstat (observed_clustering g) rgs.clustering)

/-- Insertion step of Python's stable `sorted(..., key=value,
reverse=True)`: `x` goes before the first entry whose value is ≤ its
own, so equal-valued entries keep their original relative order. -/
def insertDesc (x : α × ℚ) : List (α × ℚ) → List (α × ℚ)
  | [] => [x]
  | y :: ys => if y.2 ≤ x.2 then x :: y :: ys else y :: insertDesc x ys

/-- Python `sorted(items, key=lambda item: item[1], reverse=True)`. -/
def pySorted (l : List (α × ℚ)) : List (α × ℚ) := l.foldr insertDesc []

/-- `sorted(result.items(), key=..., reverse=True)[:k]`
(src/main.py:167-168 with `k = 5`). -/
def topK (l : List (α × ℚ)) (k : ℕ) : List (α × ℚ) := (pySorted l).take k

def top5 (l : List (α × ℚ)) : List (α × ℚ) := topK l 5

/-- Lexicographic order on code-point lists (Python's string `<`). -/
def codeLt : List ℕ → List ℕ → Bool
  | [], [] => false
  | [], _ :: _ => true
  | _ :: _, [] => false
  | a :: as, b :: bs => if a < b then true else if b < a then false else codeLt as bs

def strLt (s t : String) : Bool :=
  codeLt (s.data.map Char.toNat) (t.data.map Char.toNat)

/-- The sort the specification describes: value descending, ties broken
by ascending node identifier.  Stated only to compare against the
program's `pySorted`. -/
def specInsert (x : String × ℚ) : List (String × ℚ) → List (String × ℚ)
  | [] => [x]
  | y :: ys =>
    if y.2 < x.2 ∨ (y.2 = x.2 ∧ strLt x.1 y.1) then x :: y :: ys
    else y :: specInsert x ys

def specSorted (l : List (String × ℚ)) : List (String × ℚ) := l.foldr specInsert []

def specTopK (l : List (String × ℚ)) (k : ℕ) : List (String × ℚ) :=
  (specSorted l).take k

/-- The Python exceptions the embedded pipeline can raise.  `typeError`
is the conversion failure of `nx.parse_edgelist` on extra edge-data
tokens; no other statement of the pipeline raises. -/
inductive PyError where
  | typeError (msg : String)
deriving DecidableEq, Repr

instance {ε A : Type} [DecidableEq ε] [DecidableEq A] : DecidableEq (Except ε A) :=
  fun x y =>
    match x, y with
    | .ok a, .ok b =>
      if h : a = b then .isTrue (by rw [h]) else .isFalse (by simp [h])
    | .error a, .error b =>
      if h : a = b then .isTrue (by rw [h]) else .isFalse (by simp [h])
    | .ok _, .error _ => .isFalse (by simp)
    | .error _, .ok _ => .isFalse (by simp)

def pyErrorMessage : PyError → String
  | .typeError m => m

/-- `line.find('#')` comment stripping of `parse_edgelist`. -/
def stripComment (line : String) : String := line.takeWhile (fun c => c ≠ '#')

/-- Python `str.split()` (no argument): split on runs of whitespace,
leading and trailing whitespace ignored. -/
def wsTokens (line : String) : List String :=
  (line.split (fun c => c = ' ' ∨ c = '\t' ∨ c = '\n' ∨ c = '\r')).filter
    (fun t => t ≠ "")

/-- One pass of the `nx.parse_edgelist` loop.  `evalDict` stands for
`dict(ast.literal_eval(...))` on the joined extra tokens: `some ()` when
they form a valid edge-data dictionary, `none` when the conversion
fails, in which case the library raises `TypeError`.  A line is silently
skipped when it is empty after comment stripping or has fewer than two
tokens; its first two tokens otherwise become one undirected edge. -/
def parseEdgelistGo (evalDict : String → Option Unit) :
    List String → Graph String → Except PyError (Graph String)
  | [], g => .ok g
  | line :: rest, g =>
    let l := stripComment line
    if l = "" then parseEdgelistGo evalDict rest g else
    match wsTokens l with
    | u :: v :: d =>
      if d.isEmpty then parseEdgelistGo evalDict rest (g.addEdge u v)
      else
        match evalDict (String.intercalate " " d) with
        | some _ => parseEdgelistGo evalDict rest (g.addEdge u v)
        | none => .error (.typeError "Failed to convert edge data to dictionary.")
    | _ => parseEdgelistGo evalDict rest g

/-- `read_graph_from_file` (src/main.py:19-31) = `nx.read_edgelist` with
all defaults (`comments='#'`, whitespace delimiter, `data=True`) on the
file's lines. -/
def read_graph_from_file (evalDict : String → Option Unit)
    (lines : List String) : Except PyError (Graph String) :=
  parseEdgelistGo evalDict lines emptyG

/-- The result record assembled by `analyze_file` (src/main.py:170-180),
file-name field excluded (path handling is outside the core). -/
structure ResultRecord where
  avgCloseness : ℚ
  avgBetweenness : ℚ
  globalClustering : ℚ
  zCloseness : Option (ℚ × ℚ)
  zBetweenness : Option (ℚ × ℚ)
  zClustering : Option (ℚ × ℚ)
  top5Closeness : List (String × ℚ)
  top5Betweenness : List (String × ℚ)
deriving DecidableEq, Repr

/-- `analyze_file` (src/main.py:135-182) after the graph has been read:
compute the metric maps, average them, build the null model (10 samples
in the code; the count is a parameter here), compute z-scores and the
two top-5 lists.  `none` only on random-stream exhaustion. -/
def analyze_graph (g : Graph String) (numGraphs : ℕ)
    (rngs : List (List ℕ)) : Option ResultRecord :=
  match calculate_metrics g with
  | (cc, bc, clus) =>
    match generate_random_graphs g numGraphs rngs with
    | none => none
    | some rgs =>
      match calculate_z_scores g rgs with
      | (zc, zb, zcl) =>
        some { avgCloseness := npmean (cc.map (fun p => p.2)),
               avgBetweenness := npmean (bc.map (fun p => p.2)),
               globalClustering := npmean (clus.map (fun p => p.2)),
               zCloseness := zc,
               zBetweenness := zb,
               zClustering := zcl,
               top5Closeness := top5 cc,
               top5Betweenness := top5 bc }

/-- One file's whole pipeline as submitted to the process pool:
read the edge list, then analyze (10 null-model samples, as in the
code). -/
def processFile (evalDict : String → Option Unit) (rngs : List (List ℕ))
    (lines : List String) : Except PyError (Option ResultRecord) :=
  match read_graph_from_file evalDict lines with
  | .error e => .error e
  | .ok g => .ok (analyze_graph g 10 rngs)

/-- The `try: future.result() except Exception as e: print(...)` of
`main` (src/main.py:202-206): a raised exception is turned into a
logged message, never re-raised. -/
def handleFuture (r : Except PyError (Option ResultRecord)) :
    Except String (Option ResultRecord) :=
  match r with
  | .ok a => .ok a
  | .error e => .error ("Error processing file: " ++ pyErrorMessage e)

/-- `main` (src/main.py:184-206): every file is submitted to the pool,
and every future's outcome is collected under the per-future
try/except. -/
def mainBatch (evalDict : String → Option Unit) (rngs : List (List ℕ))
    (files : List (List String)) : List (Except String (Option ResultRecord)) :=
  files.map (fun f => handleFuture (processFile evalDict rngs f))

/-- The graph a well-formed edge-list line contributes: used to state
what `parseEdgelistGo` returns on inputs whose lines all have at most
two tokens (the only case in which no edge-data conversion runs). -/
def lineStep (g : Graph String) (line : String) : Graph String :=
  if stripComment line = "" then g else
  match wsTokens (stripComment line) with
  | u :: v :: d => if d.isEmpty then g.addEdge u v else g
  | _ => g

/-- The path `A-B, B-C` from §8 of the specification. -/
def pathABC : Graph String := (emptyG.addEdge "A" "B").addEdge "B" "C"

/-- The triangle `A-B, B-C, C-A` from §8 of the specification. -/
def triangleABC : Graph String :=
  ((emptyG.addEdge "A" "B").addEdge "B" "C").addEdge "C" "A"

/-- Two disjoint edges `A-B`, `C-D`: a disconnected 4-node graph. -/
def discPairs : Graph String := (emptyG.addEdge "A" "B").addEdge "C" "D"

/-- A single edge read as `B A`: node insertion order `B` before `A`. -/
def edgeBA : Graph String := emptyG.addEdge "B" "A"

/-- A single edge `A-B`: two nodes, one edge. -/
def edgeAB : Graph String := emptyG.addEdge "A" "B"

/-- The graph `gnm_random_graph 4 2` produces from the draw stream
`[0,1,2,2,1,3]` (the pair `(2,2)` is rejected as a self-loop). -/
def gnmDemo : Graph ℕ := ⟨[0, 1, 2, 3], [(0, 1), (1, 3)]⟩

/-- A batch of edge-list lines that are all blank, comments, skipped
short lines, or two-token edges. -/
def demoLines : List String := ["A B", "# comment", "B C", "A", ""]

/-- Default record used only to name the concrete output of
`analyze_graph` on the triangle below. -/
def recTriangle : ResultRecord :=
  (analyze_graph triangleABC 1 [[]]).getD
    ⟨0, 0, 0, none, none, none, [], []⟩

/-! ### Helper lemmas -/

theorem bfsGo_prefix (g : Graph α) (fuel : ℕ) :
    ∀ (frontier : List α) (visited : List (α × ℕ)) (d : ℕ),
      visited <+: bfsGo g fuel frontier visited d := by
  induction fuel with
  | zero => intro frontier visited d; exact List.prefix_rfl
  | succ f ih =>
    intro frontier visited d
    rw [bfsGo]
    split
    · exact List.prefix_rfl
    · exact (List.prefix_append _ _).trans (ih _ _ _)

theorem bfs_of_reachCount_one (g : Graph α) (s : α) (h : reachCount g s = 1) :
    bfs g s = [(s, 0)] := by
  obtain ⟨t, ht⟩ := bfsGo_prefix g g.nodes.length [s] [(s, 0)] 0
  have hl : (bfs g s).length = 1 := h
  unfold bfs at hl ⊢
  rw [← ht] at hl ⊢
  have hte : t = [] := by
    simp only [List.length_append, List.length_singleton] at hl
    exact List.length_eq_zero.mp (by omega)
  simp [hte]

theorem sumDist_of_reachCount_one (g : Graph α) (s : α) (h : reachCount g s = 1) :
    sumDist g s = 0 := by
  rw [sumDist, bfs_of_reachCount_one g s h]
  rfl

omit [DecidableEq α] in
theorem insertDesc_eq_orderedInsert (x : α × ℚ) (l : List (α × ℚ)) :
    insertDesc x l = List.orderedInsert (fun a b => b.2 ≤ a.2) x l := by
  induction l with
  | nil => rfl
  | cons y ys ih =>
    rw [insertDesc, List.orderedInsert]
    by_cases h : y.2 ≤ x.2
    · rw [if_pos h, if_pos h]
    · rw [if_neg h, if_neg h, ih]

omit [DecidableEq α] in
theorem pySorted_eq_insertionSort (l : List (α × ℚ)) :
    pySorted l = List.insertionSort (fun a b => b.2 ≤ a.2) l := by
  induction l with
  | nil => rfl
  | cons x xs ih =>
    rw [pySorted, List.foldr_cons, List.insertionSort]
    rw [show xs.foldr insertDesc [] = pySorted xs from rfl, ih]
    exact insertDesc_eq_orderedInsert x _

theorem sum_of_const (l : List ℚ) (c : ℚ) (h : ∀ x ∈ l, x = c) :
    l.sum = c * (l.length : ℚ) := by
  induction l with
  | nil => simp
  | cons x xs ih =>
    rw [List.sum_cons, ih (fun y hy => h y (List.mem_cons_of_mem _ hy)),
      h x (List.mem_cons_self _ _), List.length_cons]
    push_cast
    ring

theorem npmean_const (l : List ℚ) (c : ℚ) (hne : l ≠ []) (h : ∀ x ∈ l, x = c) :
    npmean l = c := by
  rw [npmean, sum_of_const l c h]
  have hlen : (l.length : ℚ) ≠ 0 := by
    have := List.length_pos.mpr hne
    exact_mod_cast Nat.pos_iff_ne_zero.mp this
  field_simp

theorem npvar_const (l : List ℚ) (c : ℚ) (hne : l ≠ []) (h : ∀ x ∈ l, x = c) :
    npvar l = 0 := by
  rw [npvar]
  have hz : ∀ y ∈ l.map (fun x => (x - npmean l) ^ 2), y = 0 := by
    intro y hy
    obtain ⟨x, hx, rfl⟩ := List.mem_map.mp hy
    rw [h x hx, npmean_const l c hne h]
    ring
  rw [npmean, List.sum_eq_zero hz, zero_div]

theorem addNode_of_mem (g : Graph ℕ) (v : ℕ) (hv : v ∈ g.nodes) : g.addNode v = g := by
  rw [Graph.addNode, if_pos (by simpa using hv)]

theorem addEdge_of_new (g : Graph ℕ) (u v : ℕ) (hu : u ∈ g.nodes) (hv : v ∈ g.nodes)
    (hne : ¬ g.hasEdge u v = true) :
    (g.addEdge u v).nodes = g.nodes ∧ (g.addEdge u v).edges = g.edges ++ [(u, v)] := by
  simp only [Graph.addEdge]
  rw [addNode_of_mem g u hu, addNode_of_mem g v hv, if_neg hne]
  exact ⟨rfl, rfl⟩

theorem getD_mod_mem (l : List ℕ) (hl : l ≠ []) (i : ℕ) : l.getD (i % l.length) 0 ∈ l := by
  have hlen : 0 < l.length := List.length_pos.mpr hl
  rw [List.getD_eq_getElem l 0 (Nat.mod_lt _ hlen)]
  exact List.getElem_mem _

theorem gnmLoop_some (m : ℕ) (nlist : List ℕ) (hn : nlist ≠ []) :
    ∀ (rng : List ℕ) (g : Graph ℕ) (cnt : ℕ) (g' : Graph ℕ),
      (∀ x ∈ nlist, x ∈ g.nodes) →
      g.edges.length = cnt → cnt ≤ m →
      gnmLoop m nlist rng g cnt = some g' →
      g'.nodes = g.nodes ∧ g'.edges.length = m
  | [], g, cnt, g', hmem, hcnt, hle, heq => by
    rw [gnmLoop] at heq
    by_cases hstop : m ≤ cnt
    · rw [if_pos hstop] at heq
      injection heq with heq'
      subst heq'
      exact ⟨rfl, by omega⟩
    · rw [if_neg hstop] at heq
      cases heq
  | [a], g, cnt, g', hmem, hcnt, hle, heq => by
    rw [gnmLoop] at heq
    by_cases hstop : m ≤ cnt
    · rw [if_pos hstop] at heq
      injection heq with heq'
      subst heq'
      exact ⟨rfl, by omega⟩
    · rw [if_neg hstop] at heq
      cases heq
  | a :: b :: rest, g, cnt, g', hmem, hcnt, hle, heq => by
    rw [gnmLoop] at heq
    by_cases hstop : m ≤ cnt
    · rw [if_pos hstop] at heq
      injection heq with heq'
      subst heq'
      exact ⟨rfl, by omega⟩
    · rw [if_neg hstop] at heq
      by_cases hskip : nlist.getD (a % nlist.length) 0 = nlist.getD (b % nlist.length) 0 ∨
          g.hasEdge (nlist.getD (a % nlist.length) 0) (nlist.getD (b % nlist.length) 0) = true
      · rw [if_pos hskip] at heq
        exact gnmLoop_some m nlist hn rest g cnt g' hmem hcnt hle heq
      · rw [if_neg hskip] at heq
        have hu : nlist.getD (a % nlist.length) 0 ∈ g.nodes :=
          hmem _ (getD_mod_mem nlist hn a)
        have hv : nlist.getD (b % nlist.length) 0 ∈ g.nodes :=
          hmem _ (getD_mod_mem nlist hn b)
        have hne : ¬ g.hasEdge (nlist.getD (a % nlist.length) 0)
            (nlist.getD (b % nlist.length) 0) = true :=
          fun hc => hskip (Or.inr hc)
        obtain ⟨hnodes, hedges⟩ := addEdge_of_new g _ _ hu hv hne
        obtain ⟨ha, hb⟩ := gnmLoop_some m nlist hn rest _ (cnt + 1) g'
          (fun x hx => hnodes ▸ hmem x hx)
          (by rw [hedges, List.length_append, hcnt]; rfl)
          (by omega) heq
        exact ⟨ha.trans hnodes, hb⟩

theorem completeGraph_nodes_length (n : ℕ) : (completeGraph n).nodes.length = n := by
  simp [completeGraph]

theorem completeGraph_edges_two_mul (n : ℕ) :
    2 * (completeGraph n).edges.length = n * (n - 1) := by
  induction n with
  | zero => rfl
  | succ k ih =>
    have hstep : (completeGraph (k + 1)).edges.length =
        (completeGraph k).edges.length + k := by
      simp only [completeGraph, List.range_succ, List.flatMap_append, List.flatMap_cons,
        List.flatMap_nil, List.length_append, List.length_map, List.length_range,
        List.append_nil]
    rw [hstep, Nat.mul_add, ih]
    cases k with
    | zero => rfl
    | succ j =>
      simp only [Nat.succ_sub_one]
      ring

theorem gnm_some_spec :
    ∀ (n m : ℕ) (rng : List ℕ) (g : Graph ℕ),
      gnm_random_graph n m rng = some g →
      g.nodes.length = n ∧
      (n = 1 → g.edges.length = 0) ∧
      (n ≠ 1 → n * (n - 1) ≤ 2 * m → 2 * g.edges.length = n * (n - 1)) ∧
      (n ≠ 1 → 2 * m < n * (n - 1) → g.edges.length = m) := by
  intro n m rng g heq
  rw [gnm_random_graph] at heq
  by_cases h1 : n = 1
  · rw [if_pos h1] at heq
    injection heq with heq'
    subst heq'
    exact ⟨by simp [emptyGraphOn, h1], fun _ => rfl,
      fun hn _ => absurd h1 hn, fun hn _ => absurd h1 hn⟩
  · rw [if_neg h1] at heq
    by_cases h2 : n * (n - 1) ≤ 2 * m
    · rw [if_pos h2] at heq
      injection heq with heq'
      subst heq'
      exact ⟨completeGraph_nodes_length n, fun h => absurd h h1,
        fun _ _ => completeGraph_edges_two_mul n, fun _ hlt => absurd h2 (by omega)⟩
    · rw [if_neg h2] at heq
      have hn0 : n ≠ 0 := by
        rintro rfl
        exact h2 (by simp)
      have hnl : (List.range n) ≠ [] := by
        simp only [ne_eq, List.range_eq_nil]
        exact hn0
      obtain ⟨ha, hb⟩ := gnmLoop_some m (List.range n) hnl rng (emptyGraphOn n) 0 g
        (fun x hx => by simpa [emptyGraphOn] using hx) rfl (Nat.zero_le m) heq
      refine ⟨by rw [ha]; simp [emptyGraphOn], fun h => absurd h h1,
        fun _ hle => absurd hle h2, fun _ _ => hb⟩

end NetMetrics

namespace NetMetrics

/-! ### Claim theorems -/

/-- C3 counterexample: on the path `A-B, B-C` the program computes
betweenness 1 for the middle node `B` (networkx's normalized default
divides the Brandes accumulation by `(n-1)(n-2) = 2`, not by 2 after
pair deduplication), whereas the claim states `betweenness(B) = 0.5`. -/
theorem betweenness_path_center_is_one :
    betweenness_centrality pathABC = [("A", 0), ("B", 1), ("C", 0)] ∧
      ¬ ((1 : ℚ) = 1 / 2) := by
  with_unfolding_all decide

/-- C3 amended: the betweenness of each node is the Brandes dependency
accumulation summed over all sources divided by `(n-1)(n-2)` when
`n > 2` (networkx's `normalized=True` default) — not divided by 2; on
the path `A-B, B-C` this gives betweenness `0, 1, 0`. -/
theorem betweenness_rescale_normalized :
    (∀ (g : Graph String) (v : String), 2 < g.nodes.length →
      betweenness g v =
        betweennessRaw g v /
          (((g.nodes.length : ℚ) - 1) * ((g.nodes.length : ℚ) - 2))) ∧
    betweenness_centrality pathABC = [("A", 0), ("B", 1), ("C", 0)] := by
  constructor
  · intro g v h
    simp [betweenness, h]
  · with_unfolding_all decide

/-- Witness for `betweenness_rescale_normalized` on the path graph. -/
theorem betweenness_rescale_normalized_witness :
    2 < pathABC.nodes.length ∧
      betweenness pathABC "B" =
        betweennessRaw pathABC "B" /
          (((pathABC.nodes.length : ℚ) - 1) * ((pathABC.nodes.length : ℚ) - 2)) :=
  ⟨by with_unfolding_all decide,
   betweenness_rescale_normalized.1 pathABC "B" (by with_unfolding_all decide)⟩

/-- C4 counterexample: on the disconnected graph `A-B, C-D` the program
computes closeness `1/3` for `A` (networkx's `wf_improved=True` default
multiplies `(r-1)/sum_of_distances` by the extra factor `(r-1)/(n-1)`),
whereas the claim's formula `(r-1)/sum_of_distances` gives `1`. -/
theorem closeness_disconnected_not_plain_ratio :
    closeness discPairs "A" = 1 / 3 ∧ reachCount discPairs "A" = 2 ∧
      sumDist discPairs "A" = 1 ∧ discPairs.nodes.length = 4 ∧
      ¬ ((1 : ℚ) / 3 = ((2 : ℚ) - 1) / 1) := by
  with_unfolding_all decide

/-- C4 amended: the program's closeness carries the Wasserman–Faust
factor `(r-1)/(n-1)` (networkx `wf_improved=True`); when every node of
the graph is reachable from `v` the factor is 1 and the claimed formula
`(r-1)/sum_of_distances = (n-1)/sum_of_distances` holds, and an
isolated node (`r = 1`) gets closeness 0. -/
theorem closeness_wf_improved :
    ∀ (g : Graph String) (v : String),
      (reachCount g v = g.nodes.length → 0 < sumDist g v →
        1 < g.nodes.length →
        closeness g v = ((g.nodes.length : ℚ) - 1) / (sumDist g v : ℚ)) ∧
      (reachCount g v = 1 → closeness g v = 0) := by
  intro g v
  constructor
  · intro hr htot hn
    rw [closeness]
    rw [if_pos ⟨htot, hn⟩, hr]
    have hne : ((g.nodes.length : ℚ) - 1) ≠ 0 := by
      have : (1 : ℚ) < (g.nodes.length : ℚ) := by exact_mod_cast hn
      linarith
    rw [div_self hne, mul_one]
  · intro hr
    rw [closeness]
    rw [if_neg]
    rw [sumDist_of_reachCount_one g v hr]
    simp

/-- Witness for `closeness_wf_improved`: the middle node of the path
`A-B, B-C` reaches all 3 nodes at total distance 2, closeness
`(3-1)/2 = 1`. -/
theorem closeness_wf_improved_witness :
    reachCount pathABC "B" = pathABC.nodes.length ∧ 0 < sumDist pathABC "B" ∧
      1 < pathABC.nodes.length ∧
      closeness pathABC "B" = ((pathABC.nodes.length : ℚ) - 1) / (sumDist pathABC "B" : ℚ) :=
  ⟨by with_unfolding_all decide, by with_unfolding_all decide,
   by with_unfolding_all decide,
   (closeness_wf_improved pathABC "B").1 (by with_unfolding_all decide)
     (by with_unfolding_all decide) (by with_unfolding_all decide)⟩

theorem parseEdgelistGo_wellformed (evalDict : String → Option Unit) :
    ∀ (lines : List String) (g : Graph String),
      (∀ l ∈ lines, (wsTokens (stripComment l)).length ≤ 2) →
      parseEdgelistGo evalDict lines g = .ok (lines.foldl lineStep g) := by
  intro lines
  induction lines with
  | nil => intro g _; rfl
  | cons line rest ih =>
    intro g h
    have hline := h line (List.mem_cons_self _ _)
    have hrest : ∀ l ∈ rest, (wsTokens (stripComment l)).length ≤ 2 :=
      fun l hl => h l (List.mem_cons_of_mem _ hl)
    rw [List.foldl_cons, parseEdgelistGo, lineStep]
    by_cases he : stripComment line = ""
    · rw [if_pos he, if_pos he]
      exact ih _ hrest
    · rw [if_neg he, if_neg he]
      cases hw : wsTokens (stripComment line) with
      | nil => exact ih _ hrest
      | cons u tl =>
        cases tl with
        | nil => exact ih _ hrest
        | cons v d =>
          have hd : d.isEmpty = true := by
            cases d with
            | nil => rfl
            | cons x xs =>
              exfalso
              rw [hw] at hline
              simp only [List.length_cons] at hline
              omega
          simp only [hd, ite_true]
          exact ih _ hrest

/-- C8 counterexample: a line that tokenizes into a single identifier is
silently skipped by `nx.parse_edgelist` (`if len(s) < 2: continue`), so
the program returns an empty graph and raises nothing, whereas the
claim requires a `ParseError`. -/
theorem parse_short_line_skipped :
    read_graph_from_file (fun _ => none) ["A"] = .ok (⟨[], []⟩ : Graph String) := by
  with_unfolding_all decide

/-- C8 amended: lines that are empty after comment stripping or
tokenize into fewer than two identifiers are silently skipped, not
errors; each line with exactly two identifiers contributes one
undirected edge; an error can arise only from lines with extra tokens,
where the extras are parsed as a Python edge-data dictionary
(`TypeError` on failure), not from short lines, and no `ParseError`
exists. -/
theorem parse_wellformed_lines (evalDict : String → Option Unit)
    (lines : List String)
    (h : ∀ l ∈ lines, (wsTokens (stripComment l)).length ≤ 2) :
    read_graph_from_file evalDict lines = .ok (lines.foldl lineStep emptyG) :=
  parseEdgelistGo_wellformed evalDict lines emptyG h

/-- Witness for `parse_wellformed_lines` on a 5-line file with one
comment line, one short line and one blank line. -/
theorem parse_wellformed_lines_witness :
    (demoLines.all (fun l => (wsTokens (stripComment l)).length ≤ 2)) = true ∧
      read_graph_from_file (fun _ => none) demoLines =
        .ok (demoLines.foldl lineStep emptyG) :=
  ⟨by with_unfolding_all decide,
   parse_wellformed_lines (fun _ => none) demoLines
     (by intro l hl; fin_cases hl <;> with_unfolding_all decide)⟩

/-- C9 confirmed: `main` submits every file to the pool before awaiting
any result, and each future's exception is caught by the per-future
`try/except`, so the batch always yields one outcome per input file and
the `i`-th outcome is exactly the `i`-th file's own processing result —
a failing file never aborts or alters the rest of the batch. -/
theorem batch_failure_isolated :
    ∀ (evalDict : String → Option Unit) (rngs : List (List ℕ))
      (files : List (List String)) (i : ℕ),
      (mainBatch evalDict rngs files).length = files.length ∧
      (mainBatch evalDict rngs files)[i]? =
        (files[i]?).map (fun f => handleFuture (processFile evalDict rngs f)) := by
  intro evalDict rngs files i
  exact ⟨List.length_map _ _, List.getElem?_map _ _ _⟩

/-- C10 confirmed: although the pipeline computes the centralities twice
(`calculate_metrics` for the record's averages, `calculate_z_scores`
for the observed values), both run the same deterministic computation
on the same graph, so the record's stored `Avg Closeness` and
`Avg Betweenness` equal the observed means recomputed in the z-score
step. -/
theorem record_means_match_zscore_observed :
    ∀ (g : Graph String) (k : ℕ) (rngs : List (List ℕ)) (rec : ResultRecord),
      analyze_graph g k rngs = some rec →
      rec.avgCloseness = observed_closeness g ∧
        rec.avgBetweenness = observed_betweenness g := by
  intro g k rngs rec h
  rw [analyze_graph] at h
  cases hg : generate_random_graphs g k rngs with
  | none => rw [hg] at h; exact absurd h (by simp)
  | some rgs =>
    rw [hg] at h
    simp only [Option.some.injEq] at h
    rw [← h]
    exact ⟨rfl, rfl⟩

/-- Witness for `record_means_match_zscore_observed` on the triangle
(one null-model sample; `G(3,3)` is the complete graph, so no random
draws are consumed). -/
theorem record_means_match_zscore_observed_witness :
    analyze_graph triangleABC 1 [[]] = some recTriangle ∧
      recTriangle.avgCloseness = observed_closeness triangleABC :=
  ⟨by with_unfolding_all decide,
   (record_means_match_zscore_observed triangleABC 1 [[]] recTriangle
     (by with_unfolding_all decide)).1⟩

/-- C7 counterexample: the program's top-k keeps Python's stable sort
order — ties stay in dict (node-insertion) order.  For the edge read as
`B A` both nodes have closeness 1 and the program returns
`[(B,1),(A,1)]`, while the claimed value-descending/id-ascending order
is `[(A,1),(B,1)]`. -/
theorem topk_tie_not_id_order :
    topK (closeness_centrality edgeBA) 2 = [("B", 1), ("A", 1)] ∧
      specTopK (closeness_centrality edgeBA) 2 = [("A", 1), ("B", 1)] ∧
      topK (closeness_centrality edgeBA) 2 ≠ specTopK (closeness_centrality edgeBA) 2 := by
  with_unfolding_all decide

/-- C7 amended: `top_k` returns the first `k` entries of Python's
stable descending sort of the `(node id, value)` pairs: the sorted list
is a permutation of the input, pairwise non-increasing in the value,
the top-k is a prefix of it, and for `k ≥` the number of entries the
whole sorted list is returned.  Ties keep the input (dict) order, not
ascending node-id order. -/
theorem topk_stable_descending :
    ∀ (l : List (String × ℚ)) (k : ℕ),
      topK l k <+: pySorted l ∧
      (pySorted l).Pairwise (fun a b => b.2 ≤ a.2) ∧
      (pySorted l).Perm l ∧
      (l.length ≤ k → topK l k = pySorted l) := by
  intro l k
  haveI : IsTotal (String × ℚ) (fun a b => b.2 ≤ a.2) := ⟨fun a b => le_total b.2 a.2⟩
  haveI : IsTrans (String × ℚ) (fun a b => b.2 ≤ a.2) :=
    ⟨fun _ _ _ h1 h2 => le_trans h2 h1⟩
  have hperm : (pySorted l).Perm l := by
    rw [pySorted_eq_insertionSort]
    exact List.perm_insertionSort _ l
  refine ⟨List.take_prefix k (pySorted l), ?_, hperm, ?_⟩
  · rw [pySorted_eq_insertionSort]
    exact List.sorted_insertionSort _ l
  · intro hk
    rw [topK]
    exact List.take_of_length_le (by rw [hperm.length_eq]; exact hk)

/-- Witness for `topk_stable_descending` with `k = 2` on a 2-entry
list. -/
theorem topk_stable_descending_witness :
    (closeness_centrality edgeBA).length ≤ 2 ∧
      topK (closeness_centrality edgeBA) 2 = pySorted (closeness_centrality edgeBA) :=
  ⟨by with_unfolding_all decide,
   (topk_stable_descending (closeness_centrality edgeBA) 2).2.2.2
     (by with_unfolding_all decide)⟩

/-- C2 counterexample: on the degenerate null-model distributions built
from one `G(2,1)` sample (all three distributions constant), the
program performs all three divisions and returns normally — every
component is numpy's non-finite float (`none`), not an exception; no
`DegenerateDistributionError` exists anywhere in the program. -/
theorem zscore_zero_variance_no_exception :
    calculate_z_scores edgeAB ⟨[[1, 1]], [[0, 0]], [0]⟩ = (none, none, none) := by
  with_unfolding_all decide

/-- C2 amended: when a null-model distribution has zero standard
deviation (zero variance; in particular when all its entries are equal)
the corresponding z-score division is still performed and produces a
non-finite float (NaN or ±infinity, `none` in the embedding); the
program raises no error. -/
theorem zscore_zero_variance_nonfinite :
    ∀ (g : Graph String) (rgs : RandomGraphMetrics) (c : ℚ),
      (npvar rgs.closeness.flatten = 0 → (calculate_z_scores g rgs).1 = none) ∧
      (npvar rgs.betweenness.flatten = 0 → (calculate_z_scores g rgs).2.1 = none) ∧
      (npvar rgs.clustering = 0 → (calculate_z_scores g rgs).2.2 = none) ∧
      (rgs.clustering ≠ [] → (∀ x ∈ rgs.clustering, x = c) →
        npvar rgs.clustering = 0) := by
  intro g rgs c
  refine ⟨fun h => ?_, fun h => ?_, fun h => ?_,
    fun hne h => npvar_const _ c hne h⟩
  all_goals simp [calculate_z_scores, zstat, h]

/-- Witness for `zscore_zero_variance_nonfinite` on the constant
clustering distribution `[0]`. -/
theorem zscore_zero_variance_nonfinite_witness :
    npvar [(0 : ℚ)] = 0 ∧
      (calculate_z_scores edgeAB ⟨[[1, 1]], [[0, 0]], [0]⟩).2.2 = none :=
  ⟨by with_unfolding_all decide,
   (zscore_zero_variance_nonfinite edgeAB ⟨[[1, 1]], [[0, 0]], [0]⟩ 0).2.2.1
     (by with_unfolding_all decide)⟩

/-- C6 counterexample: `nx.gnm_random_graph 1 1` returns the one-node
graph with zero edges — not the requested one edge, and no
`InvalidParameterError` although `m = 1` exceeds `n(n-1)/2 = 0`
(networkx clamps instead of failing). -/
theorem gnm_overlarge_m_no_error :
    gnm_random_graph 1 1 [] = some (emptyGraphOn 1) ∧
      (emptyGraphOn 1).edges.length = 0 ∧ (0 : ℕ) ≠ 1 ∧ 1 * (1 - 1) < 2 * 1 := by
  with_unfolding_all decide

/-- C6 amended: `gnm_random_graph` never raises: any returned graph has
exactly `n` nodes; it has exactly `m` edges when `m < n(n-1)/2` (and
`n ≠ 1`); when `m ≥ n(n-1)/2` the complete graph with `n(n-1)/2` edges
is returned instead, and `n = 1` yields the edgeless one-node graph
whatever `m` is. -/
theorem gnm_node_edge_counts :
    ∀ (n m : ℕ) (rng : List ℕ) (g : Graph ℕ),
      gnm_random_graph n m rng = some g →
      g.nodes.length = n ∧
      (n ≠ 1 → 2 * m < n * (n - 1) → g.edges.length = m) ∧
      (n = 1 → g.edges.length = 0) ∧
      (n ≠ 1 → n * (n - 1) ≤ 2 * m → 2 * g.edges.length = n * (n - 1)) := by
  intro n m rng g h
  obtain ⟨h1, h2, h3, h4⟩ := gnm_some_spec n m rng g h
  exact ⟨h1, h4, h2, h3⟩

/-- Witness for `gnm_node_edge_counts`: `gnm_random_graph 4 2` on the
draw stream `[0,1,2,2,1,3]` yields 4 nodes and exactly 2 edges. -/
theorem gnm_node_edge_counts_witness :
    gnm_random_graph 4 2 [0, 1, 2, 2, 1, 3] = some gnmDemo ∧
      gnmDemo.nodes.length = 4 ∧ gnmDemo.edges.length = 2 :=
  ⟨by with_unfolding_all decide,
   (gnm_node_edge_counts 4 2 [0, 1, 2, 2, 1, 3] gnmDemo (by with_unfolding_all decide)).1,
   (gnm_node_edge_counts 4 2 [0, 1, 2, 2, 1, 3] gnmDemo (by with_unfolding_all decide)).2.1
     (by omega) (by omega)⟩

/-- C1 counterexample: for the observed graph `A-B` and one null-model
sample, the closeness distribution's sole entry is the full 2-element
per-node value list `[1, 1]` (one value per node of the sample), not a
single scalar mean — `generate_random_graphs` appends
`list(nx.closeness_centrality(...).values())`, never its mean. -/
theorem nullmodel_retains_per_node_lists :
    generate_random_graphs edgeAB 1 [[]] =
      some ⟨[[1, 1]], [[0, 0]], [0]⟩ ∧
      edgeAB.nodes.length = 2 ∧
      ([[(1 : ℚ), 1]].map List.length) = [2] ∧ (2 : ℕ) ≠ 1 := by
  with_unfolding_all decide

/-- C1 amended: the null-model step returns three ordered collections
of length `sample_count`, but only the clustering one holds scalar
per-sample summaries; the closeness and betweenness collections hold
the full per-node value list of each sample (length = node count of
the input graph). -/
theorem nullmodel_distributions_shape :
    ∀ (g : Graph String) (k : ℕ) (rngs : List (List ℕ)) (d : RandomGraphMetrics),
      generate_random_graphs g k rngs = some d →
      d.closeness.length = k ∧ d.betweenness.length = k ∧ d.clustering.length = k ∧
      (∀ l ∈ d.closeness, l.length = g.nodes.length) ∧
      (∀ l ∈ d.betweenness, l.length = g.nodes.length) := by
  intro g k
  induction k with
  | zero =>
    intro rngs d h
    rw [generate_random_graphs] at h
    injection h with h'
    subst h'
    simp
  | succ j ih =>
    intro rngs d h
    cases rngs with
    | nil =>
      rw [generate_random_graphs] at h
      cases h
    | cons r rs =>
      rw [generate_random_graphs] at h
      split at h
      · rename_i rg rest hg hrec
        injection h with h'
        subst h'
        obtain ⟨l1, l2, l3, m1, m2⟩ := ih rs rest hrec
        have hnodes : rg.nodes.length = g.nodes.length :=
          (gnm_some_spec _ _ _ _ hg).1
        refine ⟨by simp [l1], by simp [l2], by simp [l3], ?_, ?_⟩
        · intro l hl
          rcases List.mem_cons.mp hl with rfl | hl'
          · simp [closeness_centrality, hnodes]
          · exact m1 l hl'
        · intro l hl
          rcases List.mem_cons.mp hl with rfl | hl'
          · simp [betweenness_centrality, hnodes]
          · exact m2 l hl'
      · cases h

/-- Witness for `nullmodel_distributions_shape` on the observed graph
`A-B` with one sample. -/
theorem nullmodel_distributions_shape_witness :
    generate_random_graphs edgeAB 1 [[]] = some ⟨[[1, 1]], [[0, 0]], [0]⟩ ∧
      (RandomGraphMetrics.mk [[1, 1]] [[0, 0]] [0]).closeness.length = 1 ∧
      (RandomGraphMetrics.mk [[(1 : ℚ), 1]] [[0, 0]] [0]).clustering.length = 1 :=
  ⟨by with_unfolding_all decide,
   (nullmodel_distributions_shape edgeAB 1 [[]] ⟨[[1, 1]], [[0, 0]], [0]⟩
     (by with_unfolding_all decide)).1,
   (nullmodel_distributions_shape edgeAB 1 [[]] ⟨[[1, 1]], [[0, 0]], [0]⟩
     (by with_unfolding_all decide)).2.2.1⟩

end NetMetrics




